import Mathlib

/-!
Verification of the NEET OMR evaluator
(src/server/utils/neetOmrEvaluator.js) against its specification.

The evaluator is a pure function over two ordered collections of
per-question answer records.  We embed it shallowly:

* a JavaScript value whose `Number(...)` coercion is finite is modelled as
  `some (n : Int)`, a non-finite coercion as `none` (the declared
  record shape in the spec says `questionNumber : integer`);
* an option string that may be `null`/missing is `Option String`;
* a JavaScript `Map` is an association list with insertion order preserved
  and last-write-wins value overwrite (`mapSet` / `mapGet`);
* the `for ... of` loops become `List.foldl`.
-/

namespace NeetOmr

/-- One row of the answer key as the evaluator receives it.
`questionNumber = none` models a value whose numeric coercion is not
finite; `correctOption = none` models a null/missing option. -/
structure AnswerKeyEntry where
  questionNumber : Option Int
  correctOption : Option String
  deriving Repr, DecidableEq

/-- One row of the student submission.  `selectedOption = none` models a
null/absent selection. -/
structure StudentAnswerEntry where
  questionNumber : Option Int
  selectedOption : Option String
  deriving Repr, DecidableEq

/-- A record appended to `wrongQuestions` for an attempted-but-wrong
answer. -/
structure WrongQuestion where
  questionNumber : Int
  subject : String
  selectedOption : String
  correctOption : String
  deriving Repr, DecidableEq

/-- The result record returned by the evaluator. -/
structure EvaluationResult where
  physicsMarks : Int
  chemistryMarks : Int
  biologyMarks : Int
  totalMarks : Int
  correctCount : Nat
  incorrectCount : Nat
  unattemptedCount : Nat
  wrongQuestions : List WrongQuestion
  deriving Repr, DecidableEq

/-- JavaScript `Map.prototype.set`: overwrite the value in place if the key
is present (keeping the original insertion position), otherwise append the
new pair at the end. -/
def mapSet {α : Type} : List (Int × α) → Int → α → List (Int × α)
  | [], k, v => [(k, v)]
  | p :: rest, k, v =>
    if p.1 = k then (k, v) :: rest else p :: mapSet rest k v

/-- JavaScript `Map.prototype.get`: the value stored at the key, if any. -/
def mapGet {α : Type} (n : Int) : List (Int × α) → Option α
  | [] => none
  | p :: rest => if p.1 = n then some p.2 else mapGet n rest

/-- JavaScript `String.prototype.toUpperCase` on the option letters the
evaluator handles: uppercase every character.  (Written over the character
list so it reduces structurally.) -/
def toUpperString (s : String) : String :=
  String.mk (s.data.map Char.toUpper)

/-- Processing of one answer-key row while building `answerKeyMap`
(the body of the first `for` loop of `evaluateNeetOMR`): skip the row if
the question number is not finite, or if the uppercased correct option is
null or falsy (the empty string); otherwise store the uppercased option. -/
def answerKeyStep (m : List (Int × String)) (item : AnswerKeyEntry) :
    List (Int × String) :=
  match item.questionNumber with
  | none => m
  | some questionNumber =>
    match item.correctOption with
    | none => m
    | some raw =>
      let correctOption := toUpperString raw
      if correctOption = "" then m
      else mapSet m questionNumber correctOption

/-- The `answerKeyMap` built from the raw answer key. -/
def buildAnswerKeyMap (answerKey : List AnswerKeyEntry) :
    List (Int × String) :=
  answerKey.foldl answerKeyStep []

/-- Processing of one student row while building `studentMap` (the body of
the second `for` loop): skip the row if the question number is not finite;
otherwise store the entry with its selection uppercased when present.  The
only field of the stored object the scoring loop reads is `selectedOption`, so
the map value is that normalized selection. -/
def studentStep (m : List (Int × Option String))
    (item : StudentAnswerEntry) : List (Int × Option String) :=
  match item.questionNumber with
  | none => m
  | some questionNumber =>
    let selectedOption := item.selectedOption.map toUpperString
    mapSet m questionNumber selectedOption

/-- The `studentMap` built from the raw student answers. -/
def buildStudentMap (studentAnswers : List StudentAnswerEntry) :
    List (Int × Option String) :=
  studentAnswers.foldl studentStep []

/-- Subject banding (`getSubject` in the source): `[1,50]` is Physics,
`[51,100]` is Chemistry, everything else falls through to Biology. -/
def getSubject (questionNumber : Int) : String :=
  if questionNumber ≥ 1 ∧ questionNumber ≤ 50 then "Physics"
  else if questionNumber ≥ 51 ∧ questionNumber ≤ 100 then "Chemistry"
  else "Biology"

/-- The all-zero accumulator the scoring loop starts from. -/
def initResult : EvaluationResult :=
  { physicsMarks := 0
    chemistryMarks := 0
    biologyMarks := 0
    totalMarks := 0
    correctCount := 0
    incorrectCount := 0
    unattemptedCount := 0
    wrongQuestions := [] }

/-- The body of the scoring loop of `evaluateNeetOMR`, one answer-key map
entry at a time.  A missing student entry, a null selection, or an empty
selection (falsy in the test `!studentEntry.selectedOption` of the source)
counts as unattempted; a match with the stored correct option scores +4 on
the total and on the subject picked by the `if`/`else if` chain; any other
selection scores -1 and appends a `WrongQuestion`. -/
def scoreQuestion (studentMap : List (Int × Option String))
    (acc : EvaluationResult) (entry : Int × String) : EvaluationResult :=
  let questionNumber := entry.1
  let correctOption := entry.2
  let subject := getSubject questionNumber
  match mapGet questionNumber studentMap with
  | none => { acc with unattemptedCount := acc.unattemptedCount + 1 }
  | some selectedOption =>
    match selectedOption with
    | none => { acc with unattemptedCount := acc.unattemptedCount + 1 }
    | some sel =>
      if sel = "" then
        { acc with unattemptedCount := acc.unattemptedCount + 1 }
      else if sel = correctOption then
        { acc with
            correctCount := acc.correctCount + 1
            totalMarks := acc.totalMarks + 4
            physicsMarks :=
              if subject = "Physics" then acc.physicsMarks + 4
              else acc.physicsMarks
            chemistryMarks :=
              if subject = "Chemistry" then acc.chemistryMarks + 4
              else acc.chemistryMarks
            biologyMarks :=
              if subject = "Biology" then acc.biologyMarks + 4
              else acc.biologyMarks }
      else
        { acc with
            incorrectCount := acc.incorrectCount + 1
            totalMarks := acc.totalMarks - 1
            physicsMarks :=
              if subject = "Physics" then acc.physicsMarks - 1
              else acc.physicsMarks
            chemistryMarks :=
              if subject = "Chemistry" then acc.chemistryMarks - 1
              else acc.chemistryMarks
            biologyMarks :=
              if subject = "Biology" then acc.biologyMarks - 1
              else acc.biologyMarks
            wrongQuestions :=
              acc.wrongQuestions ++
                [{ questionNumber := questionNumber
                   subject := subject
                   selectedOption := sel
                   correctOption := correctOption }] }

/-- The evaluator `evaluateNeetOMR`: build both lookup maps, then fold the
scoring loop over the answer-key map in its insertion order. -/
def evaluateNeetOMR (answerKey : List AnswerKeyEntry)
    (studentAnswers : List StudentAnswerEntry) : EvaluationResult :=
  let answerKeyMap := buildAnswerKeyMap answerKey
  let studentMap := buildStudentMap studentAnswers
  answerKeyMap.foldl (scoreQuestion studentMap) initResult

/-!
Specification-side definitions.  These restate, in the vocabulary of the spec,
what the maps and the marking scheme are supposed to compute; the theorems
below compare them with the code-side definitions above.
-/

/-- Normalization of one answer-key row as the spec describes the drop
rules: coerce the question number (drop when not finite), uppercase the
correct option, drop null/missing options (the empty string is falsy). -/
def normalizeKeyItem (item : AnswerKeyEntry) : Option (Int × String) :=
  match item.questionNumber, item.correctOption with
  | some n, some raw =>
    if toUpperString raw = "" then none
    else some (n, toUpperString raw)
  | _, _ => none

/-- The answer-key rows surviving the drop rules, in their original
order. -/
def normalizedKeyRows (answerKey : List AnswerKeyEntry) :
    List (Int × String) :=
  answerKey.filterMap normalizeKeyItem

/-- Normalization of one student row: coerce the question number (drop
when not finite) and uppercase the selection when present, leaving a null
selection null. -/
def normalizeStudentItem (item : StudentAnswerEntry) :
    Option (Int × Option String) :=
  match item.questionNumber with
  | some n => some (n, item.selectedOption.map toUpperString)
  | none => none

/-- The student rows surviving the drop rules, in their original order. -/
def normalizedStudentRows (studentAnswers : List StudentAnswerEntry) :
    List (Int × Option String) :=
  studentAnswers.filterMap normalizeStudentItem

/-- Keep a key list in first-seen order: append a number only when it has
not been seen yet. -/
def insertFirstSeen (ks : List Int) (n : Int) : List Int :=
  if n ∈ ks then ks else ks ++ [n]

/-- The de-duplicated, first-seen order of a list of question numbers. -/
def dedupFirstSeen (l : List Int) : List Int :=
  l.foldl insertFirstSeen []

/-- The value of the last row carrying a given question number, if any:
the last-occurrence-wins rule of the spec. -/
def lastOccurrence {α : Type} (n : Int) (rows : List (Int × α)) :
    Option α :=
  rows.foldl (fun acc p => if p.1 = n then some p.2 else acc) none

/-- Folding `mapSet` over an already-normalized row list; both lookup maps
reduce to this. -/
def buildMap {α : Type} (rows : List (Int × α)) : List (Int × α) :=
  rows.foldl (fun m p => mapSet m p.1 p.2) []

/-- Adding a delta to the mark of the named subject, as the spec phrases
the matching subject mark. -/
def addSubjectMark (subject : String) (delta : Int)
    (acc : EvaluationResult) : EvaluationResult :=
  if subject = "Physics" then
    { acc with physicsMarks := acc.physicsMarks + delta }
  else if subject = "Chemistry" then
    { acc with chemistryMarks := acc.chemistryMarks + delta }
  else
    { acc with biologyMarks := acc.biologyMarks + delta }

/-- The spec view of the student answer to a question: `none` when no
student entry exists or its selection is null/empty, otherwise the
normalized selection. -/
def effectiveSelection (studentMap : List (Int × Option String))
    (n : Int) : Option String :=
  match mapGet n studentMap with
  | some (some sel) => if sel = "" then none else some sel
  | _ => none

/-- The marking scheme exactly as the specification states it, written
from the sentences of the spec rather than from the loop body: unattempted
questions only bump `unattemptedCount`; a normalized match scores +4 on
the total and the matching subject; a wrong attempt scores -1 and appends
a `WrongQuestion` record. -/
def specMarkingStep (studentMap : List (Int × Option String))
    (acc : EvaluationResult) (entry : Int × String) : EvaluationResult :=
  let subject := getSubject entry.1
  match effectiveSelection studentMap entry.1 with
  | none => { acc with unattemptedCount := acc.unattemptedCount + 1 }
  | some sel =>
    if sel = entry.2 then
      addSubjectMark subject 4
        { acc with
            correctCount := acc.correctCount + 1
            totalMarks := acc.totalMarks + 4 }
    else
      addSubjectMark subject (-1)
        { acc with
            incorrectCount := acc.incorrectCount + 1
            totalMarks := acc.totalMarks - 1
            wrongQuestions :=
              acc.wrongQuestions ++
                [{ questionNumber := entry.1
                   subject := subject
                   selectedOption := sel
                   correctOption := entry.2 }] }

/-!
Helper lemmas about the map operations.
-/

theorem mapGet_mapSet {α : Type} (m : List (Int × α)) (k : Int) (v : α)
    (n : Int) :
    mapGet n (mapSet m k v) = if k = n then some v else mapGet n m := by
  induction m with
  | nil => simp [mapSet, mapGet]
  | cons p rest ih =>
    simp only [mapSet]
    by_cases hpk : p.1 = k
    · subst hpk
      by_cases h : p.1 = n <;> simp [mapGet, h]
    · rw [if_neg hpk]
      simp only [mapGet]
      by_cases hpn : p.1 = n
      · have hkn : ¬ k = n := fun hk => hpk (hpn.trans hk.symm)
        simp [hpn, hkn]
      · simp [hpn, ih]

theorem keys_mapSet {α : Type} (m : List (Int × α)) (k : Int) (v : α) :
    (mapSet m k v).map Prod.fst = insertFirstSeen (m.map Prod.fst) k := by
  induction m with
  | nil => simp [mapSet, insertFirstSeen]
  | cons p rest ih =>
    by_cases hpk : p.1 = k
    · subst hpk
      simp [mapSet, insertFirstSeen]
    · have hne : ¬ k = p.1 := fun h => hpk h.symm
      simp [mapSet, insertFirstSeen, hpk, hne, ih]
      by_cases hk : k ∈ rest.map Prod.fst <;> simp [hk, hne]

theorem answerKeyStep_eq_normalize (m : List (Int × String))
    (item : AnswerKeyEntry) :
    answerKeyStep m item =
      (normalizeKeyItem item).elim m (fun p => mapSet m p.1 p.2) := by
  rcases item with ⟨qn, co⟩
  cases qn with
  | none => rfl
  | some n =>
    cases co with
    | none => rfl
    | some raw =>
      by_cases h : toUpperString raw = "" <;>
        simp [answerKeyStep, normalizeKeyItem, h]

theorem studentStep_eq_normalize (m : List (Int × Option String))
    (item : StudentAnswerEntry) :
    studentStep m item =
      (normalizeStudentItem item).elim m (fun p => mapSet m p.1 p.2) := by
  rcases item with ⟨qn, so⟩
  cases qn with
  | none => rfl
  | some n => rfl

theorem foldl_step_filterMap {β γ : Type} (f : γ → Option (Int × β))
    (g : List (Int × β) → γ → List (Int × β))
    (hg : ∀ m item, g m item =
      (f item).elim m (fun p => mapSet m p.1 p.2)) :
    ∀ (l : List γ) (m : List (Int × β)),
      l.foldl g m =
        (l.filterMap f).foldl (fun m p => mapSet m p.1 p.2) m := by
  intro l
  induction l with
  | nil => intro m; rfl
  | cons a rest ih =>
    intro m
    rw [List.foldl_cons, hg]
    cases hf : f a with
    | none => simp [List.filterMap_cons, hf, ih]
    | some p => simp [List.filterMap_cons, hf, ih]

theorem buildAnswerKeyMap_eq (answerKey : List AnswerKeyEntry) :
    buildAnswerKeyMap answerKey = buildMap (normalizedKeyRows answerKey) :=
  foldl_step_filterMap normalizeKeyItem answerKeyStep
    answerKeyStep_eq_normalize answerKey []

theorem buildStudentMap_eq (studentAnswers : List StudentAnswerEntry) :
    buildStudentMap studentAnswers =
      buildMap (normalizedStudentRows studentAnswers) :=
  foldl_step_filterMap normalizeStudentItem studentStep
    studentStep_eq_normalize studentAnswers []

theorem mapGet_foldl_mapSet {α : Type} :
    ∀ (rows : List (Int × α)) (m : List (Int × α)) (n : Int),
      mapGet n (rows.foldl (fun m p => mapSet m p.1 p.2) m) =
        rows.foldl (fun acc p => if p.1 = n then some p.2 else acc)
          (mapGet n m) := by
  intro rows
  induction rows with
  | nil => intro m n; rfl
  | cons p rest ih =>
    intro m n
    rw [List.foldl_cons, ih, List.foldl_cons, mapGet_mapSet]

theorem mapGet_buildMap {α : Type} (rows : List (Int × α)) (n : Int) :
    mapGet n (buildMap rows) = lastOccurrence n rows := by
  rw [buildMap, lastOccurrence, mapGet_foldl_mapSet]
  rfl

theorem keys_foldl_mapSet {α : Type} :
    ∀ (rows : List (Int × α)) (m : List (Int × α)),
      ((rows.foldl (fun m p => mapSet m p.1 p.2) m).map Prod.fst) =
        rows.foldl (fun ks p => insertFirstSeen ks p.1)
          (m.map Prod.fst) := by
  intro rows
  induction rows with
  | nil => intro m; rfl
  | cons p rest ih =>
    intro m
    rw [List.foldl_cons, ih, List.foldl_cons, keys_mapSet]

theorem keys_buildMap {α : Type} (rows : List (Int × α)) :
    (buildMap rows).map Prod.fst = dedupFirstSeen (rows.map Prod.fst) := by
  rw [buildMap, dedupFirstSeen, keys_foldl_mapSet, List.foldl_map]
  rfl

theorem getSubject_cases (n : Int) :
    getSubject n = "Physics" ∨ getSubject n = "Chemistry" ∨
      getSubject n = "Biology" := by
  unfold getSubject
  split_ifs <;> simp

theorem scoreQuestion_eq_specMarkingStep
    (sm : List (Int × Option String)) (acc : EvaluationResult)
    (entry : Int × String) :
    scoreQuestion sm acc entry = specMarkingStep sm acc entry := by
  unfold scoreQuestion specMarkingStep effectiveSelection
  cases hget : mapGet entry.1 sm with
  | none => simp [hget]
  | some so =>
    cases so with
    | none => simp [hget]
    | some sel =>
      by_cases hsel : sel = ""
      · simp [hget, hsel]
      · by_cases heq : sel = entry.2
        · subst heq
          rcases getSubject_cases entry.1 with hs | hs | hs <;>
            simp [hget, hsel, hs, addSubjectMark]
        · rcases getSubject_cases entry.1 with hs | hs | hs <;>
            simp [hget, hsel, heq, hs, addSubjectMark, sub_eq_add_neg]

theorem scoreQuestion_countsSum (sm : List (Int × Option String))
    (acc : EvaluationResult) (entry : Int × String) :
    (scoreQuestion sm acc entry).correctCount +
        (scoreQuestion sm acc entry).incorrectCount +
        (scoreQuestion sm acc entry).unattemptedCount =
      acc.correctCount + acc.incorrectCount + acc.unattemptedCount + 1 := by
  unfold scoreQuestion
  cases hget : mapGet entry.1 sm with
  | none => simp [hget]; omega
  | some so =>
    cases so with
    | none => simp [hget]; omega
    | some sel =>
      by_cases hsel : sel = ""
      · simp [hget, hsel]; omega
      · by_cases heq : sel = entry.2
        · subst heq
          simp [hget, hsel]
          omega
        · simp [hget, hsel, heq]
          omega

theorem foldl_countsSum (sm : List (Int × Option String)) :
    ∀ (l : List (Int × String)) (acc : EvaluationResult),
      (l.foldl (scoreQuestion sm) acc).correctCount +
          (l.foldl (scoreQuestion sm) acc).incorrectCount +
          (l.foldl (scoreQuestion sm) acc).unattemptedCount =
        acc.correctCount + acc.incorrectCount + acc.unattemptedCount +
          l.length := by
  intro l
  induction l with
  | nil => intro acc; simp
  | cons e rest ih =>
    intro acc
    rw [List.foldl_cons, ih, scoreQuestion_countsSum, List.length_cons]
    omega

theorem scoreQuestion_subjectSum (sm : List (Int × Option String))
    (acc : EvaluationResult) (entry : Int × String)
    (h : acc.totalMarks =
      acc.physicsMarks + acc.chemistryMarks + acc.biologyMarks) :
    (scoreQuestion sm acc entry).totalMarks =
      (scoreQuestion sm acc entry).physicsMarks +
        (scoreQuestion sm acc entry).chemistryMarks +
        (scoreQuestion sm acc entry).biologyMarks := by
  unfold scoreQuestion
  cases hget : mapGet entry.1 sm with
  | none => simpa [hget] using h
  | some so =>
    cases so with
    | none => simpa [hget] using h
    | some sel =>
      by_cases hsel : sel = ""
      · simpa [hget, hsel] using h
      · by_cases heq : sel = entry.2
        · subst heq
          rcases getSubject_cases entry.1 with hs | hs | hs <;>
            simp [hget, hsel, hs] <;> omega
        · rcases getSubject_cases entry.1 with hs | hs | hs <;>
            simp [hget, hsel, heq, hs] <;> omega

theorem foldl_subjectSum (sm : List (Int × Option String)) :
    ∀ (l : List (Int × String)) (acc : EvaluationResult),
      acc.totalMarks =
          acc.physicsMarks + acc.chemistryMarks + acc.biologyMarks →
        (l.foldl (scoreQuestion sm) acc).totalMarks =
          (l.foldl (scoreQuestion sm) acc).physicsMarks +
            (l.foldl (scoreQuestion sm) acc).chemistryMarks +
            (l.foldl (scoreQuestion sm) acc).biologyMarks := by
  intro l
  induction l with
  | nil => intro acc h; simpa using h
  | cons e rest ih =>
    intro acc h
    rw [List.foldl_cons]
    exact ih _ (scoreQuestion_subjectSum sm acc e h)

theorem scoreQuestion_scheme (sm : List (Int × Option String))
    (acc : EvaluationResult) (entry : Int × String)
    (h1 : acc.totalMarks =
      4 * (acc.correctCount : Int) - acc.incorrectCount)
    (h2 : acc.wrongQuestions.length = acc.incorrectCount) :
    (scoreQuestion sm acc entry).totalMarks =
        4 * ((scoreQuestion sm acc entry).correctCount : Int) -
          (scoreQuestion sm acc entry).incorrectCount ∧
      (scoreQuestion sm acc entry).wrongQuestions.length =
        (scoreQuestion sm acc entry).incorrectCount := by
  unfold scoreQuestion
  cases hget : mapGet entry.1 sm with
  | none => exact ⟨by simpa [hget] using h1, by simpa [hget] using h2⟩
  | some so =>
    cases so with
    | none => exact ⟨by simpa [hget] using h1, by simpa [hget] using h2⟩
    | some sel =>
      by_cases hsel : sel = ""
      · exact ⟨by simpa [hget, hsel] using h1, by simpa [hget, hsel] using h2⟩
      · by_cases heq : sel = entry.2
        · subst heq
          simp [hget, hsel, h2]
          omega
        · simp [hget, hsel, heq, h2]
          omega

theorem foldl_scheme (sm : List (Int × Option String)) :
    ∀ (l : List (Int × String)) (acc : EvaluationResult),
      acc.totalMarks =
          4 * (acc.correctCount : Int) - acc.incorrectCount →
        acc.wrongQuestions.length = acc.incorrectCount →
          (l.foldl (scoreQuestion sm) acc).totalMarks =
              4 * ((l.foldl (scoreQuestion sm) acc).correctCount : Int) -
                (l.foldl (scoreQuestion sm) acc).incorrectCount ∧
            (l.foldl (scoreQuestion sm) acc).wrongQuestions.length =
              (l.foldl (scoreQuestion sm) acc).incorrectCount := by
  intro l
  induction l with
  | nil => intro acc h1 h2; exact ⟨by simpa using h1, by simpa using h2⟩
  | cons e rest ih =>
    intro acc h1 h2
    rw [List.foldl_cons]
    obtain ⟨g1, g2⟩ := scoreQuestion_scheme sm acc e h1 h2
    exact ih _ g1 g2

theorem scoreQuestion_congr (sm sm2 : List (Int × Option String))
    (acc : EvaluationResult) (entry : Int × String)
    (h : mapGet entry.1 sm = mapGet entry.1 sm2) :
    scoreQuestion sm acc entry = scoreQuestion sm2 acc entry := by
  simp only [scoreQuestion]
  rw [h]

theorem foldl_scoreQuestion_congr (sm sm2 : List (Int × Option String)) :
    ∀ (l : List (Int × String)) (acc : EvaluationResult),
      (∀ e ∈ l, mapGet e.1 sm = mapGet e.1 sm2) →
        l.foldl (scoreQuestion sm) acc = l.foldl (scoreQuestion sm2) acc := by
  intro l
  induction l with
  | nil => intro acc _; rfl
  | cons e rest ih =>
    intro acc h
    rw [List.foldl_cons, List.foldl_cons,
      scoreQuestion_congr sm sm2 acc e (h e (by simp))]
    exact ih _ (fun x hx => h x (by simp [hx]))

theorem mapGet_studentStep_other (m : List (Int × Option String))
    (item : StudentAnswerEntry) (n : Int)
    (h : ∀ k, item.questionNumber = some k → ¬ k = n) :
    mapGet n (studentStep m item) = mapGet n m := by
  rcases item with ⟨qn, so⟩
  cases qn with
  | none => rfl
  | some k => simp [studentStep, mapGet_mapSet, h k rfl]

theorem mapGet_foldl_studentStep_other :
    ∀ (extra : List StudentAnswerEntry)
      (m : List (Int × Option String)) (n : Int),
      (∀ item ∈ extra, ∀ k, item.questionNumber = some k → ¬ k = n) →
        mapGet n (extra.foldl studentStep m) = mapGet n m := by
  intro extra
  induction extra with
  | nil => intro m n _; rfl
  | cons item rest ih =>
    intro m n h
    rw [List.foldl_cons,
      ih _ n (fun x hx => h x (by simp [hx])),
      mapGet_studentStep_other m item n (h item (by simp))]

/-!
The claims.
-/

/-- C1: for every answer-key entry surviving the drop rules the evaluator
applies the marking scheme exactly as specified: a missing or null/empty
selection increments only `unattemptedCount`; a normalized match
increments `correctCount` and adds +4 to `totalMarks` and the matching
subject mark; any other attempt increments `incorrectCount`, subtracts 1
from `totalMarks` and the matching subject mark, and appends the
`WrongQuestion` record in iteration order.  The loop body coincides with
the spec-side `specMarkingStep`, hence the whole evaluation is the fold of
the marking scheme over the surviving entries. -/
theorem evaluateNeetOMR_marking_scheme (answerKey : List AnswerKeyEntry)
    (studentAnswers : List StudentAnswerEntry) :
    (∀ (sm : List (Int × Option String)) (acc : EvaluationResult)
        (entry : Int × String),
        scoreQuestion sm acc entry = specMarkingStep sm acc entry) ∧
      evaluateNeetOMR answerKey studentAnswers =
        (buildAnswerKeyMap answerKey).foldl
          (specMarkingStep (buildStudentMap studentAnswers)) initResult := by
  constructor
  · exact scoreQuestion_eq_specMarkingStep
  · have hfun : scoreQuestion (buildStudentMap studentAnswers) =
        specMarkingStep (buildStudentMap studentAnswers) :=
      funext fun acc => funext fun e => scoreQuestion_eq_specMarkingStep _ _ _
    show (buildAnswerKeyMap answerKey).foldl
        (scoreQuestion (buildStudentMap studentAnswers)) initResult = _
    rw [hfun]

/-- C2: the three counters always partition the distinct, non-dropped
question numbers of the answer key, and student rows whose question
numbers are absent from the answer-key map contribute nothing to the
result. -/
theorem evaluateNeetOMR_count_partition (answerKey : List AnswerKeyEntry)
    (studentAnswers extra : List StudentAnswerEntry)
    (hextra : ∀ item ∈ extra, ∀ k, item.questionNumber = some k →
      ¬ k ∈ (buildAnswerKeyMap answerKey).map Prod.fst) :
    (evaluateNeetOMR answerKey studentAnswers).correctCount +
        (evaluateNeetOMR answerKey studentAnswers).incorrectCount +
        (evaluateNeetOMR answerKey studentAnswers).unattemptedCount =
      (dedupFirstSeen ((normalizedKeyRows answerKey).map Prod.fst)).length ∧
      evaluateNeetOMR answerKey (studentAnswers ++ extra) =
        evaluateNeetOMR answerKey studentAnswers := by
  constructor
  · have h := foldl_countsSum (buildStudentMap studentAnswers)
      (buildAnswerKeyMap answerKey) initResult
    have hk : (buildAnswerKeyMap answerKey).length =
        (dedupFirstSeen
          ((normalizedKeyRows answerKey).map Prod.fst)).length := by
      rw [buildAnswerKeyMap_eq, ← keys_buildMap,
        List.length_map]
    show (evaluateNeetOMR answerKey studentAnswers).correctCount + _ + _ = _
    have hev : evaluateNeetOMR answerKey studentAnswers =
        (buildAnswerKeyMap answerKey).foldl
          (scoreQuestion (buildStudentMap studentAnswers)) initResult := rfl
    rw [hev, h, ← hk]
    simp [initResult]
  · have hsm : buildStudentMap (studentAnswers ++ extra) =
        extra.foldl studentStep (buildStudentMap studentAnswers) := by
      simp [buildStudentMap, List.foldl_append]
    have hmap : ∀ e ∈ buildAnswerKeyMap answerKey,
        mapGet e.1 (buildStudentMap (studentAnswers ++ extra)) =
          mapGet e.1 (buildStudentMap studentAnswers) := by
      intro e he
      rw [hsm]
      apply mapGet_foldl_studentStep_other
      intro item hitem k hkq hkn
      exact hextra item hitem k hkq
        (hkn ▸ List.mem_map_of_mem Prod.fst he)
    show (buildAnswerKeyMap answerKey).foldl
        (scoreQuestion (buildStudentMap (studentAnswers ++ extra)))
        initResult = _
    exact foldl_scoreQuestion_congr _ _ _ initResult hmap

/-- Closed instance of C2: one key row, one unrelated student row. -/
theorem evaluateNeetOMR_count_partition_witness :
    (evaluateNeetOMR [⟨some 1, some "A"⟩] []).correctCount +
        (evaluateNeetOMR [⟨some 1, some "A"⟩] []).incorrectCount +
        (evaluateNeetOMR [⟨some 1, some "A"⟩] []).unattemptedCount =
      (dedupFirstSeen
        ((normalizedKeyRows [⟨some 1, some "A"⟩]).map Prod.fst)).length ∧
      evaluateNeetOMR [⟨some 1, some "A"⟩] ([] ++ [⟨some 2, some "B"⟩]) =
        evaluateNeetOMR [⟨some 1, some "A"⟩] [] :=
  evaluateNeetOMR_count_partition [⟨some 1, some "A"⟩] []
    [⟨some 2, some "B"⟩]
    (by
      intro item hitem k hkq
      simp at hitem
      subst hitem
      simp at hkq
      subst hkq
      decide)

/-- C3: the total mark always equals the sum of the three subject
marks. -/
theorem evaluateNeetOMR_total_eq_subject_sum
    (answerKey : List AnswerKeyEntry)
    (studentAnswers : List StudentAnswerEntry) :
    (evaluateNeetOMR answerKey studentAnswers).totalMarks =
      (evaluateNeetOMR answerKey studentAnswers).physicsMarks +
        (evaluateNeetOMR answerKey studentAnswers).chemistryMarks +
        (evaluateNeetOMR answerKey studentAnswers).biologyMarks :=
  foldl_subjectSum (buildStudentMap studentAnswers)
    (buildAnswerKeyMap answerKey) initResult (by simp [initResult])

/-- C4: subject classification is a pure function of the question number:
band [1,50] is Physics, band [51,100] is Chemistry, and every other value
falls through to Biology; the boundary values 50, 51, 100 and 101 land as
specified. -/
theorem getSubject_banding (n : Int) :
    ((1 ≤ n ∧ n ≤ 50) → getSubject n = "Physics") ∧
      ((51 ≤ n ∧ n ≤ 100) → getSubject n = "Chemistry") ∧
      ((¬ (1 ≤ n ∧ n ≤ 50) ∧ ¬ (51 ≤ n ∧ n ≤ 100)) →
        getSubject n = "Biology") ∧
      (getSubject 50 = "Physics" ∧ getSubject 51 = "Chemistry" ∧
        getSubject 100 = "Chemistry" ∧ getSubject 101 = "Biology") := by
  unfold getSubject
  refine ⟨?_, ?_, ?_, by decide⟩
  · rintro ⟨h1, h2⟩
    rw [if_pos ⟨h1, h2⟩]
  · rintro ⟨h1, h2⟩
    have hz : ¬ (n ≥ 1 ∧ n ≤ 50) := by omega
    rw [if_neg hz, if_pos ⟨h1, h2⟩]
  · rintro ⟨h1, h2⟩
    have hz1 : ¬ (n ≥ 1 ∧ n ≤ 50) := by omega
    have hz2 : ¬ (n ≥ 51 ∧ n ≤ 100) := by omega
    rw [if_neg hz1, if_neg hz2]

/-- Closed instance of C4 at representatives of the three bands. -/
theorem getSubject_banding_witness :
    getSubject 25 = "Physics" ∧ getSubject 75 = "Chemistry" ∧
      getSubject 0 = "Biology" :=
  ⟨(getSubject_banding 25).1 (by decide),
    (getSubject_banding 75).2.1 (by decide),
    (getSubject_banding 0).2.2.1 (by decide)⟩

/-- C5: both lookup maps are keyed by coerced question number with
last-occurrence-wins values; the answer-key map lists its keys in the
de-duplicated first-seen order of the surviving rows, and the evaluation
is the fold over that map in exactly that order. -/
theorem evaluateNeetOMR_last_write_wins (answerKey : List AnswerKeyEntry)
    (studentAnswers : List StudentAnswerEntry) :
    (buildAnswerKeyMap answerKey).map Prod.fst =
        dedupFirstSeen ((normalizedKeyRows answerKey).map Prod.fst) ∧
      (∀ n, mapGet n (buildAnswerKeyMap answerKey) =
        lastOccurrence n (normalizedKeyRows answerKey)) ∧
      (∀ n, mapGet n (buildStudentMap studentAnswers) =
        lastOccurrence n (normalizedStudentRows studentAnswers)) ∧
      evaluateNeetOMR answerKey studentAnswers =
        (buildAnswerKeyMap answerKey).foldl
          (scoreQuestion (buildStudentMap studentAnswers)) initResult := by
  refine ⟨?_, ?_, ?_, rfl⟩
  · rw [buildAnswerKeyMap_eq, keys_buildMap]
  · intro n
    rw [buildAnswerKeyMap_eq, mapGet_buildMap]
  · intro n
    rw [buildStudentMap_eq, mapGet_buildMap]

/-- C6: option comparison is case-insensitive: with one surviving key row
and one student row for the same question, the answer is scored correct
exactly when the uppercased selection equals the uppercased correct
option; in particular key option a matches student selection A. -/
theorem evaluateNeetOMR_case_insensitive (n : Int) (c s : String)
    (hc : ¬ toUpperString c = "") (hs : ¬ toUpperString s = "") :
    ((evaluateNeetOMR [⟨some n, some c⟩] [⟨some n, some s⟩]).correctCount
        = 1 ↔ toUpperString s = toUpperString c) ∧
      (evaluateNeetOMR [⟨some 1, some "a"⟩]
        [⟨some 1, some "A"⟩]).correctCount = 1 := by
  constructor
  · have hkey : buildAnswerKeyMap [⟨some n, some c⟩] =
        [(n, toUpperString c)] := by
      simp [buildAnswerKeyMap, answerKeyStep, hc, mapSet]
    have hstu : buildStudentMap [⟨some n, some s⟩] =
        [(n, some (toUpperString s))] := by
      simp [buildStudentMap, studentStep, mapSet]
    have hev : evaluateNeetOMR [⟨some n, some c⟩] [⟨some n, some s⟩] =
        scoreQuestion [(n, some (toUpperString s))] initResult
          (n, toUpperString c) := by
      show (buildAnswerKeyMap [⟨some n, some c⟩]).foldl
          (scoreQuestion (buildStudentMap [⟨some n, some s⟩]))
          initResult = _
      rw [hkey, hstu]
      rfl
    rw [hev]
    by_cases heq : toUpperString s = toUpperString c
    · rw [heq]
      simp [scoreQuestion, mapGet, hc, initResult]
    · simp [scoreQuestion, mapGet, hs, heq, initResult]
  · rfl

/-- Closed instance of C6: lowercase key option against uppercase
selection. -/
theorem evaluateNeetOMR_case_insensitive_witness :
    ((evaluateNeetOMR [⟨some 2, some "b"⟩]
        [⟨some 2, some "B"⟩]).correctCount = 1 ↔
      toUpperString "B" = toUpperString "b") ∧
      (evaluateNeetOMR [⟨some 1, some "a"⟩]
        [⟨some 1, some "A"⟩]).correctCount = 1 :=
  evaluateNeetOMR_case_insensitive 2 "b" "B" (by decide) (by decide)

/-- C7: malformed rows are dropped, not fatal: an answer-key row with a
non-finite question number or a null/empty option contributes nothing
anywhere; a student row with a non-finite question number is absent from
the student lookup, so the key question it might have answered counts as
unattempted. -/
theorem evaluateNeetOMR_drops_malformed :
    (∀ (key1 key2 : List AnswerKeyEntry) (bad : AnswerKeyEntry)
        (stud : List StudentAnswerEntry),
        (bad.questionNumber = none ∨ bad.correctOption = none ∨
            ∃ raw, bad.correctOption = some raw ∧
              toUpperString raw = "") →
          evaluateNeetOMR (key1 ++ bad :: key2) stud =
            evaluateNeetOMR (key1 ++ key2) stud) ∧
      (∀ (key : List AnswerKeyEntry)
          (stud1 stud2 : List StudentAnswerEntry)
          (bad : StudentAnswerEntry),
          bad.questionNumber = none →
            evaluateNeetOMR key (stud1 ++ bad :: stud2) =
              evaluateNeetOMR key (stud1 ++ stud2)) ∧
      (∀ (n : Int) (c : String), ¬ toUpperString c = "" →
        ∀ so : Option String,
          (evaluateNeetOMR [⟨some n, some c⟩]
            [⟨none, so⟩]).unattemptedCount = 1) := by
  refine ⟨?_, ?_, ?_⟩
  · intro key1 key2 bad stud hbad
    have hstep : ∀ m, answerKeyStep m bad = m := by
      intro m
      rcases bad with ⟨qn, co⟩
      rcases hbad with h | h | ⟨raw, hr, hu⟩
      · simp at h
        subst h
        rfl
      · simp at h
        subst h
        cases qn <;> rfl
      · simp at hr
        subst hr
        cases qn with
        | none => rfl
        | some k => simp [answerKeyStep, hu]
    have hmap : buildAnswerKeyMap (key1 ++ bad :: key2) =
        buildAnswerKeyMap (key1 ++ key2) := by
      simp [buildAnswerKeyMap, List.foldl_append, List.foldl_cons, hstep]
    show (buildAnswerKeyMap (key1 ++ bad :: key2)).foldl
        (scoreQuestion (buildStudentMap stud)) initResult = _
    rw [hmap]
    rfl
  · intro key stud1 stud2 bad hbad
    have hstep : ∀ m, studentStep m bad = m := by
      intro m
      rcases bad with ⟨qn, so⟩
      simp at hbad
      subst hbad
      rfl
    have hmap : buildStudentMap (stud1 ++ bad :: stud2) =
        buildStudentMap (stud1 ++ stud2) := by
      simp [buildStudentMap, List.foldl_append, List.foldl_cons, hstep]
    show (buildAnswerKeyMap key).foldl
        (scoreQuestion (buildStudentMap (stud1 ++ bad :: stud2)))
        initResult = _
    rw [hmap]
    rfl
  · intro n c hc so
    have hkey : buildAnswerKeyMap [⟨some n, some c⟩] =
        [(n, toUpperString c)] := by
      simp [buildAnswerKeyMap, answerKeyStep, hc, mapSet]
    have hev : evaluateNeetOMR [⟨some n, some c⟩] [⟨none, so⟩] =
        scoreQuestion [] initResult (n, toUpperString c) := by
      show (buildAnswerKeyMap [⟨some n, some c⟩]).foldl
          (scoreQuestion (buildStudentMap [⟨none, so⟩])) initResult = _
      rw [hkey]
      rfl
    rw [hev]
    simp [scoreQuestion, mapGet, initResult]

/-- Closed instance of C7: a key row with a non-finite question number is
dropped from the evaluation. -/
theorem evaluateNeetOMR_drops_malformed_witness :
    evaluateNeetOMR [⟨none, some "B"⟩, ⟨some 1, some "A"⟩] [] =
      evaluateNeetOMR [⟨some 1, some "A"⟩] [] :=
  evaluateNeetOMR_drops_malformed.1 [] [⟨some 1, some "A"⟩]
    ⟨none, some "B"⟩ [] (Or.inl rfl)

/-- C8: the embedded evaluator is a total function (it returns a result
for every well-shaped input, so it never throws), and on two empty inputs
every count and mark is zero and `wrongQuestions` is empty. -/
theorem evaluateNeetOMR_total_on_empty :
    (∀ (answerKey : List AnswerKeyEntry)
        (studentAnswers : List StudentAnswerEntry),
        ∃ r : EvaluationResult,
          evaluateNeetOMR answerKey studentAnswers = r) ∧
      evaluateNeetOMR [] [] =
        { physicsMarks := 0
          chemistryMarks := 0
          biologyMarks := 0
          totalMarks := 0
          correctCount := 0
          incorrectCount := 0
          unattemptedCount := 0
          wrongQuestions := [] } :=
  ⟨fun answerKey studentAnswers =>
    ⟨evaluateNeetOMR answerKey studentAnswers, rfl⟩, rfl⟩

/-- C9: the evaluator is deterministic: structurally identical inputs give
structurally identical results, wrongQuestions order included.  (In this
pure embedding the function reads nothing but its arguments and mutates
nothing, so purity holds by construction.) -/
theorem evaluateNeetOMR_deterministic (answerKey answerKey2 :
    List AnswerKeyEntry) (studentAnswers studentAnswers2 :
    List StudentAnswerEntry) (hk : answerKey = answerKey2)
    (hs : studentAnswers = studentAnswers2) :
    evaluateNeetOMR answerKey studentAnswers =
      evaluateNeetOMR answerKey2 studentAnswers2 := by
  rw [hk, hs]

/-- Closed instance of C9 on the example-1 inputs. -/
theorem evaluateNeetOMR_deterministic_witness :
    evaluateNeetOMR [⟨some 1, some "A"⟩] [⟨some 1, some "A"⟩] =
      evaluateNeetOMR [⟨some 1, some "A"⟩] [⟨some 1, some "A"⟩] :=
  evaluateNeetOMR_deterministic [⟨some 1, some "A"⟩] [⟨some 1, some "A"⟩]
    [⟨some 1, some "A"⟩] [⟨some 1, some "A"⟩] rfl rfl

/-- C10: the total mark is always `4 * correctCount - incorrectCount`, and
the `wrongQuestions` list has exactly `incorrectCount` entries. -/
theorem evaluateNeetOMR_marks_identity (answerKey : List AnswerKeyEntry)
    (studentAnswers : List StudentAnswerEntry) :
    (evaluateNeetOMR answerKey studentAnswers).totalMarks =
        4 * ((evaluateNeetOMR answerKey studentAnswers).correctCount : Int)
          - (evaluateNeetOMR answerKey studentAnswers).incorrectCount ∧
      (evaluateNeetOMR answerKey studentAnswers).wrongQuestions.length =
        (evaluateNeetOMR answerKey studentAnswers).incorrectCount :=
  foldl_scheme (buildStudentMap studentAnswers)
    (buildAnswerKeyMap answerKey) initResult (by simp [initResult]) rfl

end NeetOmr
